import Mathlib

set_option maxRecDepth 8000

/-!
Shallow embedding of the extraction engine of src/main.py
(myneta election scraper) and proofs about its specification.

The engine operates on a parsed HTML document through a small set of
traversal primitives (spec section 4.2).  The embedding models a document
as the data those primitives yield to `parse_candidate`: heading texts,
the list of bold tags (with the text of their parent block and of the
nearest preceding text node), the sibling blocks of the Educational
heading, the criminal-cases section (sibling text before the next heading
and the rows of the first following table), and the rows of the first
table after the Immovable and the Liabilities headings.  A table row is
the list of the raw texts of its td/th cells; `clean` is applied inside
the extractors exactly where the source applies it.

Python regular expressions used by the source are embedded as executable
character-list matchers with Python semantics (leftmost match, ordered
alternation, greedy quantifiers with backtracking).  The Unicode classes
\s and \d of the re module are restricted to their ASCII parts, and
case folding to ASCII case folding.

Operations of the source that can raise (list indexing) are modelled in
`Option`: a `none` result of `immRow`, `liabRow`, `buildRecord` or
`parseCandidate` corresponds to an uncaught Python exception.
-/

namespace Myneta

/-- ASCII part of the whitespace class of Python regular expressions and
of str.strip with no argument. -/
def pySpace (c : Char) : Bool :=
  c == ' ' || c == '\t' || c == '\n' || c == '\r' || c == '\x0b' || c == '\x0c'

/-- Python str.strip(): drop leading and trailing whitespace. -/
def stripWS (l : List Char) : List Char :=
  ((l.dropWhile pySpace).reverse.dropWhile pySpace).reverse

/-- re.sub of one-or-more whitespace characters with a single blank:
of every whitespace run only one blank is kept. -/
def collapseWS : List Char → List Char
  | [] => []
  | [c] => [if pySpace c then ' ' else c]
  | c :: d :: rest =>
    if pySpace c && pySpace d then collapseWS (d :: rest)
    else (if pySpace c then ' ' else c) :: collapseWS (d :: rest)

/-- src/main.py lines 60-63: def clean(text) — empty input yields the
empty string, otherwise strip then collapse whitespace runs. -/
def clean (text : String) : String :=
  if text = "" then "" else String.mk (collapseWS (stripWS text.data))

/-- The first character, when there is one, is not whitespace. -/
def leadOK : List Char → Bool
  | [] => true
  | c :: _ => !pySpace c

/-- The last character, when there is one, is not whitespace. -/
def tailOK (l : List Char) : Bool := leadOK l.reverse

/-- A whitespace character must be the plain blank. -/
def spaceIsBlank (c : Char) : Bool := !pySpace c || c == ' '

/-- Two adjacent characters are not both whitespace. -/
def pairOK (c d : Char) : Bool := !(pySpace c && pySpace d)

/-- Every whitespace character is a single blank and no two adjacent
characters are both whitespace: internal runs are collapsed. -/
def normalizedChars : List Char → Bool
  | [] => true
  | [c] => spaceIsBlank c
  | c :: d :: rest => spaceIsBlank c && pairOK c d && normalizedChars (d :: rest)

/-- Case-sensitive prefix test on character lists. -/
def startsWithCS : List Char → List Char → Bool
  | [], _ => true
  | _ :: _, [] => false
  | p :: ps, c :: cs => p == c && startsWithCS ps cs

/-- Case-sensitive substring test: the Python `in` operator on str. -/
def containsCS (pat : List Char) : List Char → Bool
  | [] => startsWithCS pat []
  | c :: t => startsWithCS pat (c :: t) || containsCS pat t

/-- Python `pat in s`. -/
def strContains (s pat : String) : Bool := containsCS pat.data s.data

/-- Python `pat in k.lower()` for an ASCII-lowercase pattern. -/
def lowerContains (pat : List Char) (k : String) : Bool :=
  containsCS pat (k.data.map Char.toLower)

/-- Match a case-insensitive literal (given lowercase) at the front,
returning the remainder. -/
def stripPrefixCI : List Char → List Char → Option (List Char)
  | [], s => some s
  | _ :: _, [] => none
  | p :: ps, c :: cs => if c.toLower == p then stripPrefixCI ps cs else none

/-- Case-insensitive prefix test for a lowercase literal. -/
def startsWithCI (pat s : List Char) : Bool := (stripPrefixCI pat s).isSome

/-- Match the regex fragment a\s*b at this position (case-insensitive),
for a literal b starting with a non-whitespace character, for which the
greedy \s* never needs backtracking. -/
def litWsLitAt (a b : List Char) (s : List Char) : Bool :=
  match stripPrefixCI a s with
  | none => false
  | some r => startsWithCI b (r.dropWhile pySpace)

/-- Match the regex fragment a\s+b at this position (case-insensitive),
for a literal b starting with a non-whitespace character. -/
def litWsPlusLitAt (a b : List Char) (s : List Char) : Bool :=
  match stripPrefixCI a s with
  | none => false
  | some r =>
    (match r.head? with
     | some c => pySpace c
     | none => false) &&
    startsWithCI b (r.dropWhile pySpace)

/-- Match the fragment f\.?i\.?r\.? at this position (case-insensitive);
for a search only f\.?i\.?r matters, and each optional dot is forced when
present because the following literal is not a dot. -/
def firAt (l : List Char) : Bool :=
  match stripPrefixCI ['f'] l with
  | none => false
  | some r =>
    let r1 := if r.head? == some '.' then r.drop 1 else r
    match stripPrefixCI ['i'] r1 with
    | none => false
    | some r2 =>
      let r3 := if r2.head? == some '.' then r2.drop 1 else r2
      startsWithCI ['r'] r3

/-- Try a position predicate at every suffix: re.search. -/
def searchAnyPos (p : List Char → Bool) : List Char → Bool
  | [] => p []
  | c :: t => p (c :: t) || searchAnyPos p t

/-- src/main.py line 303: re.search of (case\s*no|f\.?i\.?r\.?|crime\s*no),
case-insensitive, on the joined row text. -/
def caseHeaderPat (s : String) : Bool :=
  searchAnyPos
    (fun t =>
      litWsLitAt ['c', 'a', 's', 'e'] ['n', 'o'] t || firAt t ||
      litWsLitAt ['c', 'r', 'i', 'm', 'e'] ['n', 'o'] t)
    s.data

/-- Numeric value of a digit run, as Python int() of the captured group. -/
def digitsToNat (l : List Char) : Nat := l.foldl (fun n c => 10 * n + (c.toNat - 48)) 0

/-- Match (\d+)\s+conviction at this position (case-insensitive) and
return the captured integer.  The greedy \d+ and \s+ are deterministic
here because a digit is not whitespace and the literal starts with a
letter. -/
def convAt (l : List Char) : Option Nat :=
  let ds := l.takeWhile Char.isDigit
  if ds.isEmpty then none
  else
    let r := l.dropWhile Char.isDigit
    if (r.takeWhile pySpace).isEmpty then none
    else if startsWithCI ['c', 'o', 'n', 'v', 'i', 'c', 't', 'i', 'o', 'n'] (r.dropWhile pySpace) then
      some (digitsToNat ds)
    else none

/-- Leftmost match of (\d+)\s+conviction: re.search scanning positions
left to right. -/
def searchConv : List Char → Option Nat
  | [] => none
  | c :: t =>
    match convAt (c :: t) with
    | some n => some n
    | none => searchConv t

/-- src/main.py lines 327-332: the conviction count defaults to 0 and is
the first captured integer of a (\d+)\s+conviction search of the page
text. -/
def convictionCount (pageText : String) : Nat := (searchConv pageText.data).getD 0

/-- The character class [\dA-Za-z/,\-\s] of the IPC-section capture. -/
def ipcClassChar (c : Char) : Bool :=
  c.isDigit || (c ≥ 'A' && c ≤ 'Z') || (c ≥ 'a' && c ≤ 'z') ||
  c == '/' || c == ',' || c == '-' || pySpace c

/-- Remainders a greedy \s* can leave, longest consumption first:
Python backtracking order. -/
def wsRems (s : List Char) : List (List Char) :=
  let k := (s.takeWhile pySpace).length
  (List.range (k + 1)).map (fun j => s.drop (k - j))

/-- Remainders of the alternative Sec\.? in backtracking order: the
greedy optional dot is tried with the dot first. -/
def optSecDotRems (s : List Char) : List (List Char) :=
  match stripPrefixCI ['s', 'e', 'c'] s with
  | none => []
  | some r => if r.head? == some '.' then [r.drop 1, r] else [r]

/-- Remainders of the greedy optional group (?:Section|Sec\.?|Sections)?
in backtracking order: alternatives in written order, the empty option
last. -/
def optSectionRems (s : List Char) : List (List Char) :=
  (stripPrefixCI ['s', 'e', 'c', 't', 'i', 'o', 'n'] s).toList ++
  optSecDotRems s ++
  (stripPrefixCI ['s', 'e', 'c', 't', 'i', 'o', 'n', 's'] s).toList ++ [s]

/-- Remainders of the prefix group
(?:IPC\s*(?:Section|Sec\.?|Sections)?\s*|u/s\s*|Section\s*)
of the IPC pattern of src/main.py lines 309-314, at this position, in
Python backtracking order. -/
def ipcPrefixRems (s : List Char) : List (List Char) :=
  (match stripPrefixCI ['i', 'p', 'c'] s with
   | none => []
   | some r0 => (wsRems r0).flatMap (fun r1 => (optSectionRems r1).flatMap wsRems)) ++
  (match stripPrefixCI ['u', '/', 's'] s with
   | none => []
   | some r0 => wsRems r0) ++
  (match stripPrefixCI ['s', 'e', 'c', 't', 'i', 'o', 'n'] s with
   | none => []
   | some r0 => wsRems r0)

/-- First remainder whose head can start the one-or-more capture class:
the first prefix choice after which the whole pattern succeeds. -/
def firstGoodRem : List (List Char) → Option (List Char)
  | [] => none
  | r :: rs =>
    match r.head? with
    | some c => if ipcClassChar c then some r else firstGoodRem rs
    | none => firstGoodRem rs

/-- Match the full IPC pattern at this position: the capture is the
greedy run of class characters (nothing follows it in the pattern), and
the second component is the remainder after the whole match. -/
def ipcMatchAt (s : List Char) : Option (List Char × List Char) :=
  match firstGoodRem (ipcPrefixRems s) with
  | none => none
  | some r => some (r.takeWhile ipcClassChar, r.dropWhile ipcClassChar)

/-- re.findall scan: leftmost matches, non-overlapping, continuing from
the end of each match.  Every match consumes at least one character, so
a fuel of the input length suffices. -/
def ipcFindAllAux : Nat → List Char → List (List Char)
  | 0, _ => []
  | fuel + 1, s =>
    match ipcMatchAt s with
    | some (cap, rest) => cap :: ipcFindAllAux fuel rest
    | none =>
      match s with
      | [] => []
      | _ :: t => ipcFindAllAux fuel t

/-- src/main.py lines 309-314: re.findall of the IPC-section pattern,
returning the captured groups. -/
def ipcFindAll (s : String) : List String :=
  (ipcFindAllAux (s.data.length + 1) s.data).map String.mk

/-- Separator class [,\s/] of the token split at line 317. -/
def tokSep (c : Char) : Bool := c == ',' || c == '/' || pySpace c

/-- Maximal runs of non-separator characters. -/
def splitTokensAux (cur : List Char) : List Char → List (List Char)
  | [] => if cur.isEmpty then [] else [cur.reverse]
  | c :: rest =>
    if tokSep c then
      if cur.isEmpty then splitTokensAux [] rest
      else cur.reverse :: splitTokensAux [] rest
    else splitTokensAux (c :: cur) rest

/-- src/main.py lines 317-318: re.split on [,\s/]+ with the empty parts
dropped, which is the list of maximal non-separator runs. -/
def splitTokens (s : String) : List String := (splitTokensAux [] s.data).map String.mk

/-- src/main.py line 322: re.match of ^\d+[\s|]+$ — a digit run followed
only by whitespace and pipes to the end.  The greedy quantifiers are
deterministic because a digit is not in [\s|]. -/
def pureNumRun (s : String) : Bool :=
  let ds := s.data.takeWhile Char.isDigit
  let r := s.data.dropWhile Char.isDigit
  !ds.isEmpty && !r.isEmpty && r.all (fun c => pySpace c || c == '|')

/-- Python .rstrip of a colon set: drop trailing colons. -/
def rstripColon (s : String) : String :=
  String.mk (s.data.reverse.dropWhile (fun c => c == ':')).reverse

/-- Python .strip of the parenthesis set: drop leading and trailing
parentheses. -/
def stripParens (s : String) : String :=
  String.mk (((s.data.dropWhile fun c => c == '(' || c == ')').reverse.dropWhile
      fun c => c == '(' || c == ')').reverse)

/-- Remove the first occurrence of a non-empty pattern. -/
def removeFirstAux (old : List Char) : List Char → List Char
  | [] => []
  | c :: t =>
    if startsWithCS old (c :: t) then (c :: t).drop old.length
    else c :: removeFirstAux old t

/-- Python s.replace(old, new-empty, 1): remove the first occurrence;
replacing an empty pattern by the empty string leaves s unchanged. -/
def removeFirst (s old : String) : String :=
  if old.data.isEmpty then s else String.mk (removeFirstAux old.data s.data)

/-- Assignment into a Python dict modelled as an association list:
an existing key keeps its position and gets the new value, a new key is
appended. -/
def dictSet (d : List (String × String)) (k v : String) : List (String × String) :=
  match d with
  | [] => [(k, v)]
  | (k0, v0) :: rest => if k0 == k then (k0, v) :: rest else (k0, v0) :: dictSet rest k v

/-- Python dict lookup. -/
def dictGet (d : List (String × String)) (k : String) : Option String :=
  match d with
  | [] => none
  | (k0, v0) :: rest => if k0 == k then some v0 else dictGet rest k

/-- JSON values produced by the record: strings, arrays and
string-keyed objects in insertion order. -/
inductive Json where
  | str : String → Json
  | arr : List Json → Json
  | obj : List (String × Json) → Json

/-- Lowercase hexadecimal digit. -/
def hexDigit (n : Nat) : Char :=
  if n < 10 then Char.ofNat (48 + n) else Char.ofNat (87 + n)

/-- Escaping of one character inside a JSON string, as json.dumps with
ensure_ascii False: quote, backslash and control characters only. -/
def jsonEscapeChar (c : Char) : String :=
  if c == '"' then "\\\""
  else if c == '\\' then "\\\\"
  else if c == '\n' then "\\n"
  else if c == '\t' then "\\t"
  else if c == '\r' then "\\r"
  else if c == '\x08' then "\\b"
  else if c == '\x0c' then "\\f"
  else if c.toNat < 32 then
    "\\u00" ++ String.mk [hexDigit (c.toNat / 16), hexDigit (c.toNat % 16)]
  else String.mk [c]

/-- JSON string literal, as json.dumps of a str. -/
def jsonQuote (s : String) : String :=
  "\"" ++ String.join (s.data.map jsonEscapeChar) ++ "\""

mutual

/-- json.dumps with ensure_ascii False and the default separators. -/
def Json.dumps : Json → String
  | .str s => jsonQuote s
  | .arr l => "[" ++ dumpsArr l ++ "]"
  | .obj l => "\x7b" ++ dumpsObj l ++ "\x7d"

/-- Comma-separated array elements. -/
def dumpsArr : List Json → String
  | [] => ""
  | [j] => Json.dumps j
  | j :: js => Json.dumps j ++ ", " ++ dumpsArr js

/-- Comma-separated object members. -/
def dumpsObj : List (String × Json) → String
  | [] => ""
  | [kv] => jsonQuote kv.1 ++ ": " ++ Json.dumps kv.2
  | kv :: kvs => jsonQuote kv.1 ++ ": " ++ Json.dumps kv.2 ++ ", " ++ dumpsObj kvs

end

/-- One criminal case as built at src/main.py line 306: the raw header
row text, the extracted section tokens in discovery order, and the
charge-description lines. -/
structure CaseRec where
  raw : String
  ipc_sections : List String
  charges : List String
  deriving DecidableEq, Repr

/-- The JSON shape of one case dict, in insertion order. -/
def caseJson (c : CaseRec) : Json :=
  .obj [("raw", .str c.raw), ("ipc_sections", .arr (c.ipc_sections.map .str)),
        ("charges", .arr (c.charges.map .str))]

/-- The candidate record of src/main.py lines 192-219, with its fields
in the order of the dict literal. -/
structure CandidateRecord where
  candidate_id : Nat
  source_url : String
  name : String
  constituency : String
  state : String
  party : String
  parentage : String
  age : String
  voter_enrolled_in : String
  self_profession : String
  spouse_profession : String
  education : String
  status : String
  criminal_cases_count : Nat
  convictions_count : Nat
  criminal_cases_detail : String
  immovable_assets_total_self : String
  immovable_assets_total_spouse : String
  immovable_assets_grand_total : String
  immovable_assets_detail : String
  liabilities_total : String
  liabilities_detail : String
  deriving DecidableEq, Repr

/-- A value of the returned Python dict: string or integer. -/
inductive Val where
  | s : String → Val
  | n : Nat → Val
  deriving DecidableEq, Repr

/-- One bold tag of the document: its text, the text of its parent
block, and the nearest preceding text node (find_previous). -/
structure BoldTag where
  text : String
  parentText : String
  prevString : Option String
  deriving DecidableEq, Repr

/-- The criminal-cases section: the concatenated text of the siblings
before the next heading, and the rows (raw cell texts) of the first
following table when there is one. -/
structure CrimSec where
  siblingText : String
  table : Option (List (List String))
  deriving Repr

/-- A parsed candidate page, as the traversal primitives of the
document-model adapter deliver it to the extractors:
h2Text and h5Text are the texts of the first h2 and h5 (h5 rendered with
the "|" separator); bolds is find_all of b in document order; eduBlocks
is the texts of the siblings after the Educational heading up to the
next heading; criminal, immTable and liabTable are the sections after
the respective headings (none when the heading, or its table, is
absent); pageText is get_text of the whole page. -/
structure Doc where
  h2Text : Option String
  h5Text : Option String
  bolds : List BoldTag
  eduBlocks : Option (List String)
  criminal : Option CrimSec
  immTable : Option (List (List String))
  liabTable : Option (List (List String))
  pageText : String
  deriving Repr

/-- A page with none of the recognized content. -/
def emptyDoc : Doc := ⟨none, none, [], none, none, none, none, ""⟩

/-- The fresh record of src/main.py lines 192-219. -/
def initRecord (cid : Nat) : CandidateRecord :=
  { candidate_id := cid
  , source_url := "https://www.myneta.info/LokSabha2024/candidate.php?candidate_id=" ++ toString cid
  , name := ""
  , constituency := ""
  , state := ""
  , party := ""
  , parentage := ""
  , age := ""
  , voter_enrolled_in := ""
  , self_profession := ""
  , spouse_profession := ""
  , education := ""
  , status := ""
  , criminal_cases_count := 0
  , convictions_count := 0
  , criminal_cases_detail := ""
  , immovable_assets_total_self := ""
  , immovable_assets_total_spouse := ""
  , immovable_assets_grand_total := ""
  , immovable_assets_detail := ""
  , liabilities_total := ""
  , liabilities_detail := ""
  }

/-- The returned dict: every key of the literal of lines 192-219, in
insertion order (updates keep positions). -/
def recordFields (r : CandidateRecord) : List (String × Val) :=
  [ ("candidate_id", Val.n r.candidate_id)
  , ("source_url", Val.s r.source_url)
  , ("name", Val.s r.name)
  , ("constituency", Val.s r.constituency)
  , ("state", Val.s r.state)
  , ("party", Val.s r.party)
  , ("parentage", Val.s r.parentage)
  , ("age", Val.s r.age)
  , ("voter_enrolled_in", Val.s r.voter_enrolled_in)
  , ("self_profession", Val.s r.self_profession)
  , ("spouse_profession", Val.s r.spouse_profession)
  , ("education", Val.s r.education)
  , ("status", Val.s r.status)
  , ("criminal_cases_count", Val.n r.criminal_cases_count)
  , ("convictions_count", Val.n r.convictions_count)
  , ("criminal_cases_detail", Val.s r.criminal_cases_detail)
  , ("immovable_assets_total_self", Val.s r.immovable_assets_total_self)
  , ("immovable_assets_total_spouse", Val.s r.immovable_assets_total_spouse)
  , ("immovable_assets_grand_total", Val.s r.immovable_assets_grand_total)
  , ("immovable_assets_detail", Val.s r.immovable_assets_detail)
  , ("liabilities_total", Val.s r.liabilities_total)
  , ("liabilities_detail", Val.s r.liabilities_detail)
  ]

/-- src/main.py lines 221-233: name from the first h2, constituency and
state from the first h5 split on the separator. -/
def applyHeadings (r : CandidateRecord) (doc : Doc) : CandidateRecord :=
  let r1 :=
    match doc.h2Text with
    | some t => { r with name := clean t }
    | none => r
  match doc.h5Text with
  | none => r1
  | some t =>
    let parts := t.splitOn "|"
    if parts.length ≥ 2 then
      { r1 with constituency := clean (parts.getD 0 "")
              , state := clean (stripParens (parts.getD 1 "")) }
    else if parts.length = 1 then
      { r1 with constituency := clean (parts.getD 0 "") }
    else r1

/-- src/main.py lines 236-256: one bold label dispatched to its field. -/
def labelStep (r : CandidateRecord) (b : BoldTag) : CandidateRecord :=
  let label := rstripColon (clean b.text)
  let parent_text := clean b.parentText
  let value := clean (removeFirst parent_text b.text)
  if label == "Party" then { r with party := value }
  else if label == "S/o" || label == "D/o" || label == "W/o" then { r with parentage := value }
  else if label == "Age" then { r with age := value }
  else if label == "Name Enrolled as Voter in" then { r with voter_enrolled_in := value }
  else if label == "Self Profession" then { r with self_profession := value }
  else if label == "Spouse Profession" then { r with spouse_profession := value }
  else if label == "Status" then { r with status := value }
  else r

/-- The bold-label pass over find_all of b. -/
def applyBoldLabels (r : CandidateRecord) (bolds : List BoldTag) : CandidateRecord :=
  bolds.foldl labelStep r

/-- src/main.py lines 259-271: education joins the cleaned non-empty
sibling blocks of the Educational heading. -/
def applyEducation (r : CandidateRecord) (doc : Doc) : CandidateRecord :=
  match doc.eduBlocks with
  | none => r
  | some blocks =>
    { r with education := String.intercalate " | " ((blocks.map clean).filter fun t => t != "") }

/-- src/main.py lines 296-323: the loop body over one crime-table row.
The state is the closed cases and the currently open case. -/
def crimStep (acc : List CaseRec × Option CaseRec) (row : List String) :
    List CaseRec × Option CaseRec :=
  let cells := row.map clean
  if (cells.any fun c => c != "") = false then acc
  else
    let text := String.intercalate " | " cells
    if caseHeaderPat text then
      match acc.2 with
      | some cur => (acc.1 ++ [cur], some ⟨text, [], []⟩)
      | none => (acc.1, some ⟨text, [], []⟩)
    else
      match acc.2 with
      | none => acc
      | some cur =>
        let toks := (ipcFindAll text).flatMap splitTokens
        let cur1 := { cur with ipc_sections := cur.ipc_sections ++ toks }
        let cur2 :=
          if text.length > 10 && !pureNumRun text then
            { cur1 with charges := cur1.charges ++ [text] }
          else cur1
        (acc.1, some cur2)

/-- src/main.py lines 325-326: a trailing open case is closed at table
end. -/
def crimFinalize (acc : List CaseRec × Option CaseRec) : List CaseRec :=
  match acc.2 with
  | some cur => acc.1 ++ [cur]
  | none => acc.1

/-- The criminal-case extraction over the rows of the crime table. -/
def crimFold (rows : List (List String)) : List CaseRec :=
  crimFinalize (rows.foldl crimStep ([], none))

/-- src/main.py lines 273-339: the criminal-cases section. -/
def applyCriminal (r : CandidateRecord) (doc : Doc) : CandidateRecord :=
  match doc.criminal with
  | none => { r with criminal_cases_detail := "[]" }
  | some sec =>
    if strContains sec.siblingText "No criminal cases" then
      { r with criminal_cases_count := 0, criminal_cases_detail := "[]" }
    else
      let cases :=
        match sec.table with
        | some rows => crimFold rows
        | none => []
      { r with convictions_count := convictionCount doc.pageText
             , criminal_cases_count := cases.length
             , criminal_cases_detail := Json.dumps (.arr (cases.map caseJson)) }

/-- src/main.py line 359: a header-looking cell, re.match of
^(Sr|Description|self|spouse|huf|dependent|Total), case-insensitive. -/
def immHeaderCell (c : String) : Bool :=
  startsWithCI ['s', 'r'] c.data || startsWithCI ['d', 'e', 's', 'c', 'r', 'i', 'p', 't', 'i', 'o', 'n'] c.data ||
  startsWithCI ['s', 'e', 'l', 'f'] c.data || startsWithCI ['s', 'p', 'o', 'u', 's', 'e'] c.data ||
  startsWithCI ['h', 'u', 'f'] c.data || startsWithCI ['d', 'e', 'p', 'e', 'n', 'd', 'e', 'n', 't'] c.data ||
  startsWithCI ['t', 'o', 't', 'a', 'l'] c.data

/-- src/main.py line 370: re.match of ^(Sr\s*No|Total|Grand),
case-insensitive, on the description cell. -/
def descTotalPat (s : String) : Bool :=
  (match stripPrefixCI ['s', 'r'] s.data with
   | none => false
   | some r => startsWithCI ['n', 'o'] (r.dropWhile pySpace)) ||
  startsWithCI ['t', 'o', 't', 'a', 'l'] s.data || startsWithCI ['g', 'r', 'a', 'n', 'd'] s.data

/-- src/main.py line 374: re.search of Grand\s*Total, case-insensitive,
in one cell. -/
def grandTotalSearch (v : String) : Bool :=
  searchAnyPos (litWsLitAt ['g', 'r', 'a', 'n', 'd'] ['t', 'o', 't', 'a', 'l']) v.data

/-- src/main.py line 406: re.search of (Grand\s*Total|Total\s+Liabilit),
case-insensitive, on the joined row text. -/
def liabTotalPat (s : String) : Bool :=
  searchAnyPos
    (fun t =>
      litWsLitAt ['g', 'r', 'a', 'n', 'd'] ['t', 'o', 't', 'a', 'l'] t ||
      litWsPlusLitAt ['t', 'o', 't', 'a', 'l'] ['l', 'i', 'a', 'b', 'i', 'l', 'i', 't'] t)
    s.data

/-- State of the immovable-assets loop: the active header row, the
collected data rows, and the record under construction. -/
structure ImmState where
  headers : List String
  rows : List (List (String × String))
  record : CandidateRecord
  deriving DecidableEq, Repr

/-- src/main.py line 365: headers[j] when j is in range, else the
positional placeholder col_j. -/
def headerKey (headers : List String) (j : Nat) : String :=
  if j < headers.length then headers.getD j "" else "col_" ++ toString j

/-- Build row_dict of src/main.py lines 363-366. -/
def buildRowDictAux (headers : List String) : Nat → List (String × String) → List String →
    List (String × String)
  | _, d, [] => d
  | j, d, c :: cs => buildRowDictAux headers (j + 1) (dictSet d (headerKey headers j) c) cs

/-- row_dict of one data row. -/
def buildRowDict (headers : List String) (cells : List String) : List (String × String) :=
  buildRowDictAux headers 0 [] cells

/-- src/main.py lines 376-380: in the grand-total row, keys containing
self and spouse set the respective totals when the value is non-empty. -/
def setSelfSpouse (r : CandidateRecord) : List (String × String) → CandidateRecord
  | [] => r
  | (k, v) :: rest =>
    let r1 :=
      if lowerContains ['s', 'e', 'l', 'f'] k && v != "" then
        { r with immovable_assets_total_self := v }
      else r
    let r2 :=
      if lowerContains ['s', 'p', 'o', 'u', 's', 'e'] k && v != "" then
        { r1 with immovable_assets_total_spouse := v }
      else r1
    setSelfSpouse r2 rest

/-- src/main.py lines 353-383: the loop body over one immovable-assets
row; none models the IndexError of line 382 on a row with no non-empty
cell, which the guard of line 355 makes unreachable. -/
def immRow (st : ImmState) (i : Nat) (row : List String) : Option ImmState :=
  let cells := row.map clean
  if (cells.any fun c => c != "") = false then some st
  else if i = 0 ∨ ((cells.filter fun c => c != "").all immHeaderCell) = true then
    some { st with headers := cells }
  else
    let row_dict := buildRowDict st.headers cells
    let d0 := (dictGet row_dict "Description").getD ""
    let desc := if d0 != "" then d0 else if cells.length > 1 then cells.getD 1 "" else ""
    let st1 :=
      if desc != "" && !descTotalPat desc then { st with rows := st.rows ++ [row_dict] }
      else st
    if cells.any grandTotalSearch then
      let r1 := setSelfSpouse st1.record row_dict
      match (cells.filter fun c => c != "").getLast? with
      | none => none
      | some last_val =>
        some { st1 with record := { r1 with immovable_assets_grand_total := last_val } }
    else some st1

/-- Total counterpart of immRow, with the guarded last-cell access
written with a default. -/
def immRowTotal (st : ImmState) (i : Nat) (row : List String) : ImmState :=
  let cells := row.map clean
  if (cells.any fun c => c != "") = false then st
  else if i = 0 ∨ ((cells.filter fun c => c != "").all immHeaderCell) = true then
    { st with headers := cells }
  else
    let row_dict := buildRowDict st.headers cells
    let d0 := (dictGet row_dict "Description").getD ""
    let desc := if d0 != "" then d0 else if cells.length > 1 then cells.getD 1 "" else ""
    let st1 :=
      if desc != "" && !descTotalPat desc then { st with rows := st.rows ++ [row_dict] }
      else st
    if cells.any grandTotalSearch then
      let r1 := setSelfSpouse st1.record row_dict
      let last_val := (cells.filter fun c => c != "").getLastD ""
      { st1 with record := { r1 with immovable_assets_grand_total := last_val } }
    else st1

/-- The enumerate loop of line 353. -/
def immFold : ImmState → Nat → List (List String) → Option ImmState
  | st, _, [] => some st
  | st, i, row :: rest =>
    match immRow st i row with
    | none => none
    | some st2 => immFold st2 (i + 1) rest

/-- Total counterpart of immFold. -/
def immFoldTotal : ImmState → Nat → List (List String) → ImmState
  | st, _, [] => st
  | st, i, row :: rest => immFoldTotal (immRowTotal st i row) (i + 1) rest

/-- The JSON shape of one row dict. -/
def rowJson (d : List (String × String)) : Json :=
  .obj (d.map fun kv => (kv.1, .str kv.2))

/-- src/main.py lines 341-385: the immovable-assets section; the detail
field is set outside the section guard, so an absent heading or table
serializes the empty row list. -/
def applyImmovable (r : CandidateRecord) (doc : Doc) : Option CandidateRecord :=
  match doc.immTable with
  | none => some { r with immovable_assets_detail := Json.dumps (.arr []) }
  | some table =>
    match immFold ⟨[], [], r⟩ 0 table with
    | none => none
    | some st =>
      some { st.record with immovable_assets_detail := Json.dumps (.arr (st.rows.map rowJson)) }

/-- Total counterpart of applyImmovable. -/
def applyImmovableTotal (r : CandidateRecord) (doc : Doc) : CandidateRecord :=
  match doc.immTable with
  | none => { r with immovable_assets_detail := Json.dumps (.arr []) }
  | some table =>
    let st := immFoldTotal ⟨[], [], r⟩ 0 table
    { st.record with immovable_assets_detail := Json.dumps (.arr (st.rows.map rowJson)) }

/-- src/main.py lines 396-407: the loop body over one liabilities row;
none models the IndexError of line 407 on an all-empty row, which the
joined-text pattern makes unreachable. -/
def liabRow (acc : List (String × String) × CandidateRecord) (row : List String) :
    Option (List (String × String) × CandidateRecord) :=
  let cells := (row.map clean).filter fun c => c != ""
  let d := if cells.length ≥ 2 then dictSet acc.1 (cells.getD 0 "") (cells.getLastD "") else acc.1
  let row_text := String.intercalate " " cells
  if liabTotalPat row_text then
    match cells.getLast? with
    | none => none
    | some v => some (d, { acc.2 with liabilities_total := v })
  else some (d, acc.2)

/-- Total counterpart of liabRow. -/
def liabRowTotal (acc : List (String × String) × CandidateRecord) (row : List String) :
    List (String × String) × CandidateRecord :=
  let cells := (row.map clean).filter fun c => c != ""
  let d := if cells.length ≥ 2 then dictSet acc.1 (cells.getD 0 "") (cells.getLastD "") else acc.1
  let row_text := String.intercalate " " cells
  if liabTotalPat row_text then (d, { acc.2 with liabilities_total := cells.getLastD "" })
  else (d, acc.2)

/-- The liabilities row loop. -/
def liabFold : List (String × String) × CandidateRecord → List (List String) →
    Option (List (String × String) × CandidateRecord)
  | acc, [] => some acc
  | acc, row :: rest =>
    match liabRow acc row with
    | none => none
    | some acc2 => liabFold acc2 rest

/-- Total counterpart of liabFold. -/
def liabFoldTotal : List (String × String) × CandidateRecord → List (List String) →
    List (String × String) × CandidateRecord
  | acc, [] => acc
  | acc, row :: rest => liabFoldTotal (liabRowTotal acc row) rest

/-- src/main.py lines 387-410: the liabilities section; the detail field
is set outside the section guard. -/
def applyLiab (r : CandidateRecord) (doc : Doc) : Option CandidateRecord :=
  match doc.liabTable with
  | none => some { r with liabilities_detail := Json.dumps (.obj []) }
  | some table =>
    match liabFold ([], r) table with
    | none => none
    | some acc =>
      some { acc.2 with
             liabilities_detail := Json.dumps (.obj (acc.1.map fun kv => (kv.1, .str kv.2))) }

/-- Total counterpart of applyLiab. -/
def applyLiabTotal (r : CandidateRecord) (doc : Doc) : CandidateRecord :=
  match doc.liabTable with
  | none => { r with liabilities_detail := Json.dumps (.obj []) }
  | some table =>
    let acc := liabFoldTotal ([], r) table
    { acc.2 with
      liabilities_detail := Json.dumps (.obj (acc.1.map fun kv => (kv.1, .str kv.2))) }

/-- src/main.py lines 414-423: the fallback pass over bold currency
figures.  The branch for a preceding text containing Assets with an
empty grand total is a pass statement in the source and is a no-op
here. -/
def summaryStep (r : CandidateRecord) (b : BoldTag) : CandidateRecord :=
  let txt := clean b.text
  if startsWithCS ['R', 's', ' '] txt.data || txt == "Nil" then
    match b.prevString with
    | none => r
    | some prev =>
      let prev_clean := clean prev
      if strContains prev_clean "Liabilities" && r.liabilities_total == "" then
        { r with liabilities_total := txt }
      else r
  else r

/-- The fallback pass over find_all of b. -/
def applyBoldSummary (r : CandidateRecord) (bolds : List BoldTag) : CandidateRecord :=
  bolds.foldl summaryStep r

/-- The scalar-field stages of parse_candidate before the section
extractors: headings, bold labels, education. -/
def preRecord (cid : Nat) (doc : Doc) : CandidateRecord :=
  applyEducation (applyBoldLabels (applyHeadings (initRecord cid) doc) doc.bolds) doc

/-- Total counterpart of the whole success path of parse_candidate. -/
def buildRecordTotal (cid : Nat) (doc : Doc) : CandidateRecord :=
  applyBoldSummary
    (applyLiabTotal (applyImmovableTotal (applyCriminal (preRecord cid doc) doc) doc) doc)
    doc.bolds

/-- src/main.py lines 190-430: the success path of parse_candidate over
one parsed page; none models an uncaught exception. -/
def buildRecord (cid : Nat) (doc : Doc) : Option CandidateRecord :=
  match applyImmovable (applyCriminal (preRecord cid doc) doc) doc with
  | none => none
  | some r1 =>
    match applyLiab r1 doc with
    | none => none
    | some r2 => some (applyBoldSummary r2 doc.bolds)

/-- src/main.py lines 184-430: parse_candidate.  A none page is the
fetch-failure sentinel of safe_get (lines 186-188) and yields the
two-field error dict; a some page runs the extraction engine. -/
def parseCandidate (cid : Nat) (page : Option Doc) : Option (List (String × Val)) :=
  match page with
  | none => some [("candidate_id", Val.n cid), ("error", Val.s "fetch_failed")]
  | some doc => (buildRecord cid doc).map recordFields

/-- The immovable-assets example table of the claim, with the literal
grand-total row whose first cell is empty. -/
def docC5 : Doc :=
  { emptyDoc with
    immTable := some
      [ ["Description", "Self", "Spouse", "Total"]
      , ["Agricultural Land", "Rs 5,00,000", "Nil", "Rs 5,00,000"]
      , ["", "Rs 5,00,000", "Nil", "Rs 5,00,000"] ] }

/-- The immovable-assets example table with a grand-total row that
carries the text Grand Total in its first cell. -/
def docC5A : Doc :=
  { emptyDoc with
    immTable := some
      [ ["Description", "Self", "Spouse", "Total"]
      , ["Agricultural Land", "Rs 5,00,000", "Nil", "Rs 5,00,000"]
      , ["Grand Total", "Rs 5,00,000", "Nil", "Rs 5,00,000"] ] }

/-- The liabilities example table of the claim. -/
def docC6 : Doc :=
  { emptyDoc with
    liabTable := some [["Bank Loan", "Rs 1,00,000"], ["Grand Total", "Rs 1,00,000"]] }

/-- A page with no criminal-cases heading whose page text nevertheless
contains a conviction figure. -/
def docC7 : Doc := { emptyDoc with pageText := "2 conviction" }

/-! ## Properties of the text normalizer -/

theorem leadOK_dropWhile (l : List Char) : leadOK (l.dropWhile pySpace) = true := by
  induction l with
  | nil => rfl
  | cons c t ih =>
    by_cases h : pySpace c = true
    · simpa [List.dropWhile_cons, h] using ih
    · simp [List.dropWhile_cons, h, leadOK]

theorem exists_concat_dropWhile (p : Char → Bool) (l : List Char) :
    ∃ t, t ++ l.dropWhile p = l := by
  induction l with
  | nil => exact ⟨[], rfl⟩
  | cons c t ih =>
    by_cases h : p c = true
    · obtain ⟨u, hu⟩ := ih
      exact ⟨c :: u, by simp [List.dropWhile_cons, h, hu]⟩
    · exact ⟨[], by simp [List.dropWhile_cons, h]⟩

theorem leadOK_of_eq_append (m l u : List Char) (h : l = m ++ u) (hl : leadOK l = true) :
    leadOK m = true := by
  cases m with
  | nil => rfl
  | cons a t =>
    subst h
    simpa [leadOK] using hl

theorem leadOK_rstrip (l : List Char) (hl : leadOK l = true) :
    leadOK (l.reverse.dropWhile pySpace).reverse = true := by
  obtain ⟨t, ht⟩ := exists_concat_dropWhile pySpace l.reverse
  have hsplit : l = (l.reverse.dropWhile pySpace).reverse ++ t.reverse := by
    have h2 := congrArg List.reverse ht
    simpa [List.reverse_append] using h2.symm
  exact leadOK_of_eq_append _ l _ hsplit hl

theorem stripWS_leadOK (l : List Char) : leadOK (stripWS l) = true :=
  leadOK_rstrip _ (leadOK_dropWhile l)

theorem stripWS_tailOK (l : List Char) : tailOK (stripWS l) = true := by
  unfold stripWS tailOK
  rw [List.reverse_reverse]
  exact leadOK_dropWhile _

theorem collapseWS_ne_nil (c : Char) (rest : List Char) : collapseWS (c :: rest) ≠ [] := by
  induction rest generalizing c with
  | nil => simp [collapseWS]
  | cons d t ih =>
    by_cases h : (pySpace c && pySpace d) = true
    · simpa [collapseWS, h] using ih d
    · simp [collapseWS, h]

theorem collapseWS_leadOK (l : List Char) (h : leadOK l = true) :
    leadOK (collapseWS l) = true := by
  match l with
  | [] => rfl
  | [c] =>
    have hc : pySpace c = false := by simpa [leadOK] using h
    simp [collapseWS, hc, leadOK]
  | c :: d :: rest =>
    have hc : pySpace c = false := by simpa [leadOK] using h
    simp [collapseWS, hc, leadOK]

theorem leadOK_head (m : List Char) (d : Char) (h : leadOK m = true) (hh : m.head? = some d) :
    pySpace d = false := by
  cases m with
  | nil => simp at hh
  | cons a t =>
    simp [List.head?] at hh
    subst hh
    simpa [leadOK] using h

theorem normalizedChars_cons (c : Char) (M : List Char) :
    normalizedChars (c :: M) =
      (spaceIsBlank c &&
        (match M.head? with
         | some d => pairOK c d
         | none => true) && normalizedChars M) := by
  cases M <;> simp [normalizedChars]

theorem collapseWS_normalized (l : List Char) : normalizedChars (collapseWS l) = true := by
  induction l with
  | nil => rfl
  | cons c rest ih =>
    cases rest with
    | nil =>
      by_cases hc : pySpace c = true <;> simp [collapseWS, normalizedChars, spaceIsBlank, hc]
    | cons d t =>
      by_cases hcd : (pySpace c && pySpace d) = true
      · simpa [collapseWS, hcd] using ih
      · rw [show collapseWS (c :: d :: t) = (if pySpace c then ' ' else c) :: collapseWS (d :: t)
            from by simp [collapseWS, hcd]]
        rw [normalizedChars_cons]
        have hsb : spaceIsBlank (if pySpace c then ' ' else c) = true := by
          by_cases hc : pySpace c = true <;> simp [spaceIsBlank, hc]
        have hpair :
            (match (collapseWS (d :: t)).head? with
             | some d0 => pairOK (if pySpace c then ' ' else c) d0
             | none => true) = true := by
          cases hh : (collapseWS (d :: t)).head? with
          | none => rfl
          | some d0 =>
            by_cases hc : pySpace c = true
            · have hd : pySpace d = false := by
                rcases Bool.and_eq_false_iff.mp (by simpa using hcd) with h1 | h1
                · exact absurd hc (by simp [h1])
                · exact h1
              have hlead : leadOK (collapseWS (d :: t)) = true :=
                collapseWS_leadOK _ (by simp [leadOK, hd])
              have hd0 : pySpace d0 = false := leadOK_head _ _ hlead hh
              simp [pairOK, hd0]
            · simp [pairOK, hc]
        rw [hsb, hpair, ih]
        rfl

theorem collapseWS_id (l : List Char) (h : normalizedChars l = true) : collapseWS l = l := by
  induction l with
  | nil => rfl
  | cons c rest ih =>
    cases rest with
    | nil =>
      have hsb : spaceIsBlank c = true := by simpa [normalizedChars] using h
      by_cases hsp : pySpace c = true
      · have hval : (c == ' ') = true := by simpa [spaceIsBlank, hsp] using hsb
        have : c = ' ' := eq_of_beq hval
        simp [collapseWS, hsp, this]
      · simp [collapseWS, hsp]
    | cons d t =>
      simp only [normalizedChars, Bool.and_eq_true] at h
      obtain ⟨⟨hsb, hpair⟩, hrest⟩ := h
      have hcd : (pySpace c && pySpace d) = false := by
        have h3 : (!(pySpace c && pySpace d)) = true := hpair
        cases h4 : (pySpace c && pySpace d) with
        | false => rfl
        | true => rw [h4] at h3; simp at h3
      have hkeep : (if pySpace c then ' ' else c) = c := by
        by_cases hsp : pySpace c = true
        · have hval : (c == ' ') = true := by simpa [spaceIsBlank, hsp] using hsb
          simp [hsp, eq_of_beq hval]
        · simp [hsp]
      simp [collapseWS, hcd, hkeep, ih hrest]

theorem leadOK_append (xs ys : List Char) (h : xs ≠ []) :
    leadOK (xs ++ ys) = leadOK xs := by
  cases xs with
  | nil => simp at h
  | cons a t => simp [List.cons_append, leadOK]

theorem tailOK_cons_cons (a b : Char) (t : List Char) :
    tailOK (a :: b :: t) = tailOK (b :: t) := by
  unfold tailOK
  rw [List.reverse_cons]
  exact leadOK_append _ _ (by simp)

theorem tailOK_cons (a : Char) (m : List Char) (h : m ≠ []) : tailOK (a :: m) = tailOK m := by
  cases m with
  | nil => simp at h
  | cons b t => exact tailOK_cons_cons a b t

theorem collapseWS_tailOK (l : List Char) (h : tailOK l = true) :
    tailOK (collapseWS l) = true := by
  induction l with
  | nil => rfl
  | cons c rest ih =>
    cases rest with
    | nil =>
      have hc : pySpace c = false := by simpa [tailOK, leadOK] using h
      simp [collapseWS, hc, tailOK, leadOK]
    | cons d t =>
      have h2 : tailOK (d :: t) = true := by rwa [tailOK_cons_cons] at h
      by_cases hcd : (pySpace c && pySpace d) = true
      · simpa [collapseWS, hcd] using ih h2
      · rw [show collapseWS (c :: d :: t) = (if pySpace c then ' ' else c) :: collapseWS (d :: t)
            from by simp [collapseWS, hcd]]
        rw [tailOK_cons _ _ (collapseWS_ne_nil d t)]
        exact ih h2

theorem dropWhile_id_of_leadOK (l : List Char) (h : leadOK l = true) :
    l.dropWhile pySpace = l := by
  cases l with
  | nil => rfl
  | cons c t =>
    have hc : pySpace c = false := by simpa [leadOK] using h
    simp [List.dropWhile_cons, hc]

theorem stripWS_id (l : List Char) (h1 : leadOK l = true) (h2 : tailOK l = true) :
    stripWS l = l := by
  unfold tailOK at h2
  unfold stripWS
  rw [dropWhile_id_of_leadOK l h1, dropWhile_id_of_leadOK l.reverse h2, List.reverse_reverse]

theorem clean_data_leadOK (s : String) : leadOK (clean s).data = true := by
  by_cases h : s = ""
  · simp [clean, h, leadOK]
  · simp only [clean, h, if_neg, ite_false]
    exact collapseWS_leadOK _ (stripWS_leadOK _)

theorem clean_data_tailOK (s : String) : tailOK (clean s).data = true := by
  by_cases h : s = ""
  · simp [clean, h, tailOK, leadOK]
  · simp only [clean, h, if_neg, ite_false]
    exact collapseWS_tailOK _ (stripWS_tailOK _)

theorem clean_data_normalized (s : String) : normalizedChars (clean s).data = true := by
  by_cases h : s = ""
  · simp [clean, h, normalizedChars]
  · simp only [clean, h, if_neg, ite_false]
    exact collapseWS_normalized _

theorem clean_idem (s : String) : clean (clean s) = clean s := by
  by_cases h0 : clean s = ""
  · rw [h0]
    decide
  · conv_lhs => rw [clean]
    rw [if_neg h0]
    rw [stripWS_id _ (clean_data_leadOK s) (clean_data_tailOK s)]
    rw [collapseWS_id _ (clean_data_normalized s)]

/-! ## The Option-valued engine never returns none -/

theorem eq_false_of_ne_true {b : Bool} (h : ¬ b = true) : b = false := by
  cases b with
  | false => rfl
  | true => exact absurd rfl h

theorem eq_true_of_ne_false {b : Bool} (h : ¬ b = false) : b = true := by
  cases b with
  | true => rfl
  | false => exact absurd rfl h

theorem getLast?_of_ne_nil {α : Type} (l : List α) (d : α) (h : l ≠ []) :
    l.getLast? = some (l.getLastD d) := by
  obtain ⟨a, ha⟩ := Option.isSome_iff_exists.mp (List.getLast?_isSome.mpr h)
  rw [ha, List.getLastD_eq_getLast?, ha]
  rfl

theorem filter_ne_nil_of_any (cells : List String)
    (h : (cells.any fun c => c != "") = true) :
    (cells.filter fun c => c != "") ≠ [] := by
  obtain ⟨c, hc, hne⟩ := List.any_eq_true.mp h
  intro hnil
  have hmem : c ∈ cells.filter fun c => c != "" := List.mem_filter.mpr ⟨hc, hne⟩
  rw [hnil] at hmem
  simp at hmem

theorem immRow_eq (st : ImmState) (i : Nat) (row : List String) :
    immRow st i row = some (immRowTotal st i row) := by
  by_cases h1 : ((row.map clean).any fun c => c != "") = false
  · simp [immRow, immRowTotal, h1]
  · have hany : ((row.map clean).any fun c => c != "") = true := eq_true_of_ne_false h1
    have hne := filter_ne_nil_of_any _ hany
    simp only [immRow, immRowTotal, h1, getLast?_of_ne_nil _ "" hne]
    split_ifs <;> rfl

theorem intercalate_nil_blank : String.intercalate " " ([] : List String) = "" := rfl

theorem liabTotalPat_empty : liabTotalPat "" = false := by decide

theorem liabRow_eq (acc : List (String × String) × CandidateRecord) (row : List String) :
    liabRow acc row = some (liabRowTotal acc row) := by
  by_cases hp :
      liabTotalPat (String.intercalate " " ((row.map clean).filter fun c => c != "")) = true
  · have hne : ((row.map clean).filter fun c => c != "") ≠ [] := by
      intro h0
      rw [h0, intercalate_nil_blank, liabTotalPat_empty] at hp
      exact absurd hp (by simp)
    simp only [liabRow, liabRowTotal, hp, getLast?_of_ne_nil _ "" hne]
    split_ifs <;> rfl
  · have hp2 : liabTotalPat
        (String.intercalate " " ((row.map clean).filter fun c => c != "")) = false :=
      eq_false_of_ne_true hp
    simp only [liabRow, liabRowTotal, hp2, Bool.false_eq_true, if_false]

theorem immFold_eq (rows : List (List String)) : ∀ (st : ImmState) (i : Nat),
    immFold st i rows = some (immFoldTotal st i rows) := by
  induction rows with
  | nil => intro st i; rfl
  | cons row rest ih =>
    intro st i
    simp [immFold, immFoldTotal, immRow_eq, ih]

theorem liabFold_eq (rows : List (List String)) :
    ∀ acc : List (String × String) × CandidateRecord,
      liabFold acc rows = some (liabFoldTotal acc rows) := by
  induction rows with
  | nil => intro acc; rfl
  | cons row rest ih =>
    intro acc
    simp [liabFold, liabFoldTotal, liabRow_eq, ih]

theorem applyImmovable_eq (r : CandidateRecord) (doc : Doc) :
    applyImmovable r doc = some (applyImmovableTotal r doc) := by
  unfold applyImmovable applyImmovableTotal
  cases doc.immTable with
  | none => rfl
  | some table => simp [immFold_eq]

theorem applyLiab_eq (r : CandidateRecord) (doc : Doc) :
    applyLiab r doc = some (applyLiabTotal r doc) := by
  unfold applyLiab applyLiabTotal
  cases doc.liabTable with
  | none => rfl
  | some table => simp [liabFold_eq]

theorem buildRecord_eq (cid : Nat) (doc : Doc) :
    buildRecord cid doc = some (buildRecordTotal cid doc) := by
  unfold buildRecord buildRecordTotal
  simp [applyImmovable_eq, applyLiab_eq]

theorem parseCandidate_eq (cid : Nat) (doc : Doc) :
    parseCandidate cid (some doc) = some (recordFields (buildRecordTotal cid doc)) := by
  simp [parseCandidate, buildRecord_eq]

/-! ## Frame facts of the stages -/

theorem summaryStep_cases (r : CandidateRecord) (b : BoldTag) :
    summaryStep r b = r ∨
      (r.liabilities_total = "" ∧
        summaryStep r b = { r with liabilities_total := clean b.text }) := by
  simp only [summaryStep]
  split
  · split
    · exact Or.inl rfl
    · split
      · next h2 =>
        have hy : (r.liabilities_total == "") = true := by
          cases hx : r.liabilities_total == "" with
          | true => rfl
          | false => rw [hx, Bool.and_false] at h2; exact absurd h2 (by simp)
        exact Or.inr ⟨eq_of_beq hy, rfl⟩
      · exact Or.inl rfl
  · exact Or.inl rfl

theorem applyBoldSummary_cases (bolds : List BoldTag) : ∀ r : CandidateRecord,
    applyBoldSummary r bolds =
      { r with liabilities_total := (applyBoldSummary r bolds).liabilities_total } ∧
    (r.liabilities_total ≠ "" → applyBoldSummary r bolds = r) := by
  induction bolds with
  | nil => intro r; exact ⟨rfl, fun _ => rfl⟩
  | cons b t ih =>
    intro r
    have hstep : applyBoldSummary r (b :: t) = applyBoldSummary (summaryStep r b) t := rfl
    constructor
    · rcases summaryStep_cases r b with h | ⟨hemp, h⟩
      · rw [hstep, h]
        exact (ih r).1
      · rw [hstep, h]
        exact (ih { r with liabilities_total := clean b.text }).1
    · intro hne
      rcases summaryStep_cases r b with h | ⟨hemp, h⟩
      · rw [hstep, h]
        exact (ih r).2 hne
      · exact absurd hemp hne

theorem summary_keeps (bolds : List BoldTag) (r : CandidateRecord) :
    (applyBoldSummary r bolds).criminal_cases_count = r.criminal_cases_count ∧
    (applyBoldSummary r bolds).criminal_cases_detail = r.criminal_cases_detail ∧
    (applyBoldSummary r bolds).convictions_count = r.convictions_count ∧
    (applyBoldSummary r bolds).immovable_assets_detail = r.immovable_assets_detail ∧
    (applyBoldSummary r bolds).liabilities_detail = r.liabilities_detail := by
  have h := (applyBoldSummary_cases bolds r).1
  exact ⟨(congrArg CandidateRecord.criminal_cases_count h).trans rfl,
         (congrArg CandidateRecord.criminal_cases_detail h).trans rfl,
         (congrArg CandidateRecord.convictions_count h).trans rfl,
         (congrArg CandidateRecord.immovable_assets_detail h).trans rfl,
         (congrArg CandidateRecord.liabilities_detail h).trans rfl⟩

theorem setSelfSpouse_keeps (l : List (String × String)) : ∀ r : CandidateRecord,
    (setSelfSpouse r l).criminal_cases_count = r.criminal_cases_count ∧
    (setSelfSpouse r l).criminal_cases_detail = r.criminal_cases_detail ∧
    (setSelfSpouse r l).convictions_count = r.convictions_count := by
  induction l with
  | nil => intro r; exact ⟨rfl, rfl, rfl⟩
  | cons kv rest ih =>
    intro r
    simp only [setSelfSpouse]
    split_ifs <;> exact ih _

theorem immRowTotal_keeps (st : ImmState) (i : Nat) (row : List String) :
    (immRowTotal st i row).record.criminal_cases_count = st.record.criminal_cases_count ∧
    (immRowTotal st i row).record.criminal_cases_detail = st.record.criminal_cases_detail ∧
    (immRowTotal st i row).record.convictions_count = st.record.convictions_count := by
  simp only [immRowTotal]
  split_ifs <;> first
    | exact ⟨rfl, rfl, rfl⟩
    | exact setSelfSpouse_keeps _ _

theorem immFoldTotal_keeps (rows : List (List String)) : ∀ (st : ImmState) (i : Nat),
    (immFoldTotal st i rows).record.criminal_cases_count = st.record.criminal_cases_count ∧
    (immFoldTotal st i rows).record.criminal_cases_detail = st.record.criminal_cases_detail ∧
    (immFoldTotal st i rows).record.convictions_count = st.record.convictions_count := by
  induction rows with
  | nil => intro st i; exact ⟨rfl, rfl, rfl⟩
  | cons row rest ih =>
    intro st i
    have h1 := immRowTotal_keeps st i row
    have h2 := ih (immRowTotal st i row) (i + 1)
    exact ⟨h2.1.trans h1.1, h2.2.1.trans h1.2.1, h2.2.2.trans h1.2.2⟩

theorem applyImmovableTotal_keeps (r : CandidateRecord) (doc : Doc) :
    (applyImmovableTotal r doc).criminal_cases_count = r.criminal_cases_count ∧
    (applyImmovableTotal r doc).criminal_cases_detail = r.criminal_cases_detail ∧
    (applyImmovableTotal r doc).convictions_count = r.convictions_count := by
  unfold applyImmovableTotal
  cases doc.immTable with
  | none => exact ⟨rfl, rfl, rfl⟩
  | some table => exact immFoldTotal_keeps table ⟨[], [], r⟩ 0

theorem liabRowTotal_keeps (acc : List (String × String) × CandidateRecord)
    (row : List String) :
    (liabRowTotal acc row).2.criminal_cases_count = acc.2.criminal_cases_count ∧
    (liabRowTotal acc row).2.criminal_cases_detail = acc.2.criminal_cases_detail ∧
    (liabRowTotal acc row).2.convictions_count = acc.2.convictions_count ∧
    (liabRowTotal acc row).2.immovable_assets_detail = acc.2.immovable_assets_detail := by
  simp only [liabRowTotal]
  split_ifs <;> exact ⟨rfl, rfl, rfl, rfl⟩

theorem liabFoldTotal_keeps (rows : List (List String)) :
    ∀ acc : List (String × String) × CandidateRecord,
    (liabFoldTotal acc rows).2.criminal_cases_count = acc.2.criminal_cases_count ∧
    (liabFoldTotal acc rows).2.criminal_cases_detail = acc.2.criminal_cases_detail ∧
    (liabFoldTotal acc rows).2.convictions_count = acc.2.convictions_count ∧
    (liabFoldTotal acc rows).2.immovable_assets_detail = acc.2.immovable_assets_detail := by
  induction rows with
  | nil => intro acc; exact ⟨rfl, rfl, rfl, rfl⟩
  | cons row rest ih =>
    intro acc
    have h1 := liabRowTotal_keeps acc row
    have h2 := ih (liabRowTotal acc row)
    exact ⟨h2.1.trans h1.1, h2.2.1.trans h1.2.1, h2.2.2.1.trans h1.2.2.1,
           h2.2.2.2.trans h1.2.2.2⟩

theorem applyLiabTotal_keeps (r : CandidateRecord) (doc : Doc) :
    (applyLiabTotal r doc).criminal_cases_count = r.criminal_cases_count ∧
    (applyLiabTotal r doc).criminal_cases_detail = r.criminal_cases_detail ∧
    (applyLiabTotal r doc).convictions_count = r.convictions_count ∧
    (applyLiabTotal r doc).immovable_assets_detail = r.immovable_assets_detail := by
  unfold applyLiabTotal
  cases doc.liabTable with
  | none => exact ⟨rfl, rfl, rfl, rfl⟩
  | some table =>
    have h := liabFoldTotal_keeps table ([], r)
    exact ⟨h.1, h.2.1, h.2.2.1, h.2.2.2⟩

theorem labelStep_keeps (r : CandidateRecord) (b : BoldTag) :
    (labelStep r b).criminal_cases_count = r.criminal_cases_count ∧
    (labelStep r b).convictions_count = r.convictions_count := by
  simp only [labelStep]
  split_ifs <;> exact ⟨rfl, rfl⟩

theorem applyBoldLabels_keeps (bolds : List BoldTag) : ∀ r : CandidateRecord,
    (applyBoldLabels r bolds).criminal_cases_count = r.criminal_cases_count ∧
    (applyBoldLabels r bolds).convictions_count = r.convictions_count := by
  induction bolds with
  | nil => intro r; exact ⟨rfl, rfl⟩
  | cons b t ih =>
    intro r
    have h1 := labelStep_keeps r b
    have h2 := ih (labelStep r b)
    exact ⟨h2.1.trans h1.1, h2.2.trans h1.2⟩

theorem applyHeadings_keeps (r : CandidateRecord) (doc : Doc) :
    (applyHeadings r doc).criminal_cases_count = r.criminal_cases_count ∧
    (applyHeadings r doc).convictions_count = r.convictions_count := by
  unfold applyHeadings
  rcases h2 : doc.h2Text with _ | t0 <;> rcases h5 : doc.h5Text with _ | t <;>
    simp only [h2, h5] <;> (try split_ifs) <;> simp

theorem applyEducation_keeps (r : CandidateRecord) (doc : Doc) :
    (applyEducation r doc).criminal_cases_count = r.criminal_cases_count ∧
    (applyEducation r doc).convictions_count = r.convictions_count := by
  unfold applyEducation
  cases doc.eduBlocks with
  | none => exact ⟨rfl, rfl⟩
  | some blocks => exact ⟨rfl, rfl⟩

theorem preRecord_zero (cid : Nat) (doc : Doc) :
    (preRecord cid doc).criminal_cases_count = 0 ∧
    (preRecord cid doc).convictions_count = 0 := by
  unfold preRecord
  have h1 := applyHeadings_keeps (initRecord cid) doc
  have h2 := applyBoldLabels_keeps doc.bolds (applyHeadings (initRecord cid) doc)
  have h3 := applyEducation_keeps
    (applyBoldLabels (applyHeadings (initRecord cid) doc) doc.bolds) doc
  exact ⟨h3.1.trans (h2.1.trans h1.1), h3.2.trans (h2.2.trans h1.2)⟩

/-! ## The criminal-cases stage -/

theorem dumps_arr_nil : Json.dumps (.arr []) = "[]" := by decide

theorem dumps_obj_nil : Json.dumps (.obj []) = "\x7b\x7d" := by decide

theorem applyCriminal_spec (r : CandidateRecord) (doc : Doc)
    (h0 : r.criminal_cases_count = 0) :
    ∃ l : List Json,
      (applyCriminal r doc).criminal_cases_detail = Json.dumps (.arr l) ∧
      (applyCriminal r doc).criminal_cases_count = l.length := by
  unfold applyCriminal
  cases doc.criminal with
  | none => exact ⟨[], dumps_arr_nil.symm, by simpa using h0⟩
  | some sec =>
    by_cases hs : strContains sec.siblingText "No criminal cases" = true
    · simp only [hs, if_true]
      exact ⟨[], dumps_arr_nil.symm, rfl⟩
    · have hs2 : strContains sec.siblingText "No criminal cases" = false :=
        eq_false_of_ne_true hs
      simp only [hs2, Bool.false_eq_true, if_false]
      refine ⟨((match sec.table with
                | some rows => crimFold rows
                | none => []).map caseJson), rfl, ?_⟩
      simp [List.length_map]

theorem applyCriminal_conv_none (r : CandidateRecord) (doc : Doc)
    (h : doc.criminal = none) :
    (applyCriminal r doc).convictions_count = r.convictions_count := by
  unfold applyCriminal
  rw [h]

theorem applyCriminal_conv_nocase (r : CandidateRecord) (doc : Doc) (sec : CrimSec)
    (h : doc.criminal = some sec)
    (hs : strContains sec.siblingText "No criminal cases" = true) :
    (applyCriminal r doc).convictions_count = r.convictions_count := by
  unfold applyCriminal
  rw [h]
  simp only [hs, if_true]

theorem applyCriminal_conv_main (r : CandidateRecord) (doc : Doc) (sec : CrimSec)
    (h : doc.criminal = some sec)
    (hs : strContains sec.siblingText "No criminal cases" = false) :
    (applyCriminal r doc).convictions_count = convictionCount doc.pageText := by
  unfold applyCriminal
  rw [h]
  simp only [hs, Bool.false_eq_true, if_false]

theorem applyImmovableTotal_detail (r : CandidateRecord) (doc : Doc) :
    ∃ l : List Json,
      (applyImmovableTotal r doc).immovable_assets_detail = Json.dumps (.arr l) := by
  unfold applyImmovableTotal
  cases doc.immTable with
  | none => exact ⟨[], rfl⟩
  | some table => exact ⟨_, rfl⟩

theorem applyLiabTotal_detail (r : CandidateRecord) (doc : Doc) :
    ∃ o : List (String × Json),
      (applyLiabTotal r doc).liabilities_detail = Json.dumps (.obj o) := by
  unfold applyLiabTotal
  cases doc.liabTable with
  | none => exact ⟨[], rfl⟩
  | some table => exact ⟨_, rfl⟩

/-! ## The claims -/

/-- C1: for every page that is fetched successfully (the non-error path
of parse_candidate), the returned record's criminal_cases_count equals
the number of elements of the JSON array serialized into its
criminal_cases_detail field. -/
theorem criminal_count_matches_detail (cid : Nat) (doc : Doc) :
    ∃ (r : CandidateRecord) (l : List Json),
      parseCandidate cid (some doc) = some (recordFields r) ∧
      r.criminal_cases_detail = Json.dumps (.arr l) ∧
      r.criminal_cases_count = l.length := by
  obtain ⟨l, hd, hc⟩ := applyCriminal_spec (preRecord cid doc) doc (preRecord_zero cid doc).1
  have h1 := summary_keeps doc.bolds
    (applyLiabTotal (applyImmovableTotal (applyCriminal (preRecord cid doc) doc) doc) doc)
  have h2 := applyLiabTotal_keeps (applyImmovableTotal (applyCriminal (preRecord cid doc) doc) doc) doc
  have h3 := applyImmovableTotal_keeps (applyCriminal (preRecord cid doc) doc) doc
  refine ⟨buildRecordTotal cid doc, l, parseCandidate_eq cid doc, ?_, ?_⟩
  · unfold buildRecordTotal
    exact h1.2.1.trans (h2.2.1.trans (h3.2.1.trans hd))
  · unfold buildRecordTotal
    exact h1.1.trans (h2.1.trans (h3.1.trans hc))

/-- C2: every successfully fetched page yields a structurally complete
record: all twenty-two keys present, counts as non-negative integers,
the three detail fields valid serializations of an array, an array and
an object; and a page with none of the recognized sections yields the
record with every scalar field empty, counts zero, and the details [],
[] and the empty object. -/
theorem record_structurally_complete :
    (∀ (cid : Nat) (doc : Doc), ∃ r : CandidateRecord,
      parseCandidate cid (some doc) = some (recordFields r) ∧
      (recordFields r).map Prod.fst =
        ["candidate_id", "source_url", "name", "constituency", "state", "party",
         "parentage", "age", "voter_enrolled_in", "self_profession", "spouse_profession",
         "education", "status", "criminal_cases_count", "convictions_count",
         "criminal_cases_detail", "immovable_assets_total_self",
         "immovable_assets_total_spouse", "immovable_assets_grand_total",
         "immovable_assets_detail", "liabilities_total", "liabilities_detail"] ∧
      0 ≤ r.criminal_cases_count ∧ 0 ≤ r.convictions_count ∧
      (∃ l : List Json, r.criminal_cases_detail = Json.dumps (.arr l)) ∧
      (∃ l : List Json, r.immovable_assets_detail = Json.dumps (.arr l)) ∧
      (∃ o : List (String × Json), r.liabilities_detail = Json.dumps (.obj o))) ∧
    (∀ cid : Nat,
      parseCandidate cid (some emptyDoc) =
        some (recordFields
          { initRecord cid with
            criminal_cases_detail := "[]"
            immovable_assets_detail := "[]"
            liabilities_detail := "\x7b\x7d" })) := by
  constructor
  · intro cid doc
    obtain ⟨l, hd, _⟩ := applyCriminal_spec (preRecord cid doc) doc (preRecord_zero cid doc).1
    have h1 := summary_keeps doc.bolds
      (applyLiabTotal (applyImmovableTotal (applyCriminal (preRecord cid doc) doc) doc) doc)
    have h2 := applyLiabTotal_keeps
      (applyImmovableTotal (applyCriminal (preRecord cid doc) doc) doc) doc
    have h3 := applyImmovableTotal_keeps (applyCriminal (preRecord cid doc) doc) doc
    obtain ⟨li, hdi⟩ := applyImmovableTotal_detail (applyCriminal (preRecord cid doc) doc) doc
    obtain ⟨lo, hdo⟩ := applyLiabTotal_detail
      (applyImmovableTotal (applyCriminal (preRecord cid doc) doc) doc) doc
    refine ⟨buildRecordTotal cid doc, parseCandidate_eq cid doc, rfl,
            Nat.zero_le _, Nat.zero_le _, ⟨l, ?_⟩, ⟨li, ?_⟩, ⟨lo, ?_⟩⟩
    · unfold buildRecordTotal
      exact h1.2.1.trans (h2.2.1.trans (h3.2.1.trans hd))
    · unfold buildRecordTotal
      exact h1.2.2.2.1.trans (h2.2.2.2.trans hdi)
    · unfold buildRecordTotal
      exact h1.2.2.2.2.trans hdo
  · intro cid
    rw [parseCandidate_eq]
    rfl

/-- C3: for every non-null parsed document, a single parse_candidate
call terminates and returns a record, never an exception: the modelled
failure points (the two guarded last-cell accesses) are unreachable, so
malformed rows are only ever skipped row-locally. -/
theorem extraction_never_fails (cid : Nat) (doc : Doc) :
    (parseCandidate cid (some doc)).isSome = true := by
  rw [parseCandidate_eq]
  rfl

/-- C4: the criminal-case extractor is a two-state machine: rows before
a first header row leave the no-open-case state unchanged, a header row
closes any open case and opens a new one from the row text, a trailing
open case is closed at table end, and the four-row example yields
exactly the two expected cases with their section tokens and charge
line. -/
theorem criminal_state_machine :
    (∀ (cs : List CaseRec) (row : List String),
        caseHeaderPat (String.intercalate " | " (row.map clean)) = false →
        crimStep (cs, none) row = (cs, none)) ∧
    (∀ (cs : List CaseRec) (c : CaseRec) (row : List String),
        ((row.map clean).any fun x => x != "") = true →
        caseHeaderPat (String.intercalate " | " (row.map clean)) = true →
        crimStep (cs, some c) row =
          (cs ++ [c], some ⟨String.intercalate " | " (row.map clean), [], []⟩)) ∧
    (∀ (cs : List CaseRec) (c : CaseRec), crimFinalize (cs, some c) = cs ++ [c]) ∧
    crimFold [["Case No. 12 of 2020"], ["IPC Section 143, 147"], ["Case No. 13 of 2021"],
        ["u/s 323"]] =
      [⟨"Case No. 12 of 2020", ["143", "147"], ["IPC Section 143, 147"]⟩,
       ⟨"Case No. 13 of 2021", ["323"], []⟩] := by
  refine ⟨?_, ?_, fun cs c => rfl, by decide⟩
  · intro cs row hpat
    simp [crimStep, hpat]
  · intro cs c row hany hpat
    simp [crimStep, hpat, hany]

/-- Witness for C4: the two-state transitions applied at concrete rows. -/
theorem criminal_state_machine_witness :
    crimStep ([], none) ["hello"] = ([], none) ∧
    crimStep ([], some ⟨"x", [], []⟩) ["Case No. 1"] =
      ([⟨"x", [], []⟩], some ⟨String.intercalate " | " (["Case No. 1"].map clean), [], []⟩) :=
  ⟨criminal_state_machine.1 [] ["hello"] (by decide),
   criminal_state_machine.2.1 [] ⟨"x", [], []⟩ ["Case No. 1"] (by decide) (by decide)⟩

/-- C5 counterexample: on the immovable-assets example table with the
grand-total row written as the claim gives it (empty first cell, no cell
containing the text Grand Total), the extractor emits that row as a
second data row and leaves both totals empty, so the claimed single-row
output with populated totals is false. -/
theorem immovable_example_counterexample :
    parseCandidate 0 (some docC5) = some (recordFields (buildRecordTotal 0 docC5)) ∧
    (buildRecordTotal 0 docC5).immovable_assets_detail =
      Json.dumps (.arr
        [ .obj [("Description", .str "Agricultural Land"), ("Self", .str "Rs 5,00,000"),
                ("Spouse", .str "Nil"), ("Total", .str "Rs 5,00,000")]
        , .obj [("Description", .str ""), ("Self", .str "Rs 5,00,000"),
                ("Spouse", .str "Nil"), ("Total", .str "Rs 5,00,000")] ]) ∧
    (buildRecordTotal 0 docC5).immovable_assets_grand_total = "" ∧
    (buildRecordTotal 0 docC5).immovable_assets_total_self = "" ∧
    ¬((buildRecordTotal 0 docC5).immovable_assets_grand_total = "Rs 5,00,000" ∧
      (buildRecordTotal 0 docC5).immovable_assets_total_self = "Rs 5,00,000") := by
  refine ⟨parseCandidate_eq 0 docC5, ?_, ?_, ?_, ?_⟩ <;> decide

/-- C5 amended: with the grand-total row actually carrying the text
Grand Total in a cell, the output is exactly one data row and the grand
total and self total are Rs 5,00,000 as the claim expects. -/
theorem immovable_example_amended :
    parseCandidate 0 (some docC5A) = some (recordFields (buildRecordTotal 0 docC5A)) ∧
    (buildRecordTotal 0 docC5A).immovable_assets_detail =
      Json.dumps (.arr
        [ .obj [("Description", .str "Agricultural Land"), ("Self", .str "Rs 5,00,000"),
                ("Spouse", .str "Nil"), ("Total", .str "Rs 5,00,000")] ]) ∧
    (buildRecordTotal 0 docC5A).immovable_assets_grand_total = "Rs 5,00,000" ∧
    (buildRecordTotal 0 docC5A).immovable_assets_total_self = "Rs 5,00,000" := by
  refine ⟨parseCandidate_eq 0 docC5A, ?_, ?_, ?_⟩ <;> decide

/-- C6 counterexample: on the liabilities example the mapping also
records the Grand Total row as an entry, so it is not exactly the
single Bank Loan binding the claim states. -/
theorem liabilities_example_counterexample :
    parseCandidate 0 (some docC6) = some (recordFields (buildRecordTotal 0 docC6)) ∧
    (buildRecordTotal 0 docC6).liabilities_detail =
      Json.dumps (.obj [("Bank Loan", .str "Rs 1,00,000"),
                        ("Grand Total", .str "Rs 1,00,000")]) ∧
    (buildRecordTotal 0 docC6).liabilities_total = "Rs 1,00,000" ∧
    (buildRecordTotal 0 docC6).liabilities_detail ≠
      Json.dumps (.obj [("Bank Loan", .str "Rs 1,00,000")]) := by
  refine ⟨parseCandidate_eq 0 docC6, ?_, ?_, ?_⟩ <;> decide

theorem dictGet_dictSet (d : List (String × String)) (k v : String) :
    dictGet (dictSet d k v) k = some v := by
  induction d with
  | nil => simp [dictSet, dictGet]
  | cons kv rest ih =>
    obtain ⟨k0, v0⟩ := kv
    by_cases h : (k0 == k) = true
    · simp [dictSet, dictGet, h]
    · have h2 : (k0 == k) = false := eq_false_of_ne_true h
      simp [dictSet, dictGet, h2, ih]

/-- C6 amended: every row with at least two non-empty cells records a
mapping entry, first cell to last cell, with a later assignment to the
same key winning; on the example the mapping is the Bank Loan binding
together with the Grand Total binding, and the total is Rs 1,00,000. -/
theorem liabilities_example_amended :
    (∀ (acc : List (String × String) × CandidateRecord) (row : List String),
        ((row.map clean).filter fun c => c != "").length ≥ 2 →
        (liabRowTotal acc row).1 =
          dictSet acc.1 (((row.map clean).filter fun c => c != "").getD 0 "")
            (((row.map clean).filter fun c => c != "").getLastD "")) ∧
    (∀ (d : List (String × String)) (k v : String), dictGet (dictSet d k v) k = some v) ∧
    parseCandidate 0 (some docC6) = some (recordFields (buildRecordTotal 0 docC6)) ∧
    (buildRecordTotal 0 docC6).liabilities_detail =
      Json.dumps (.obj [("Bank Loan", .str "Rs 1,00,000"),
                        ("Grand Total", .str "Rs 1,00,000")]) ∧
    (buildRecordTotal 0 docC6).liabilities_total = "Rs 1,00,000" := by
  refine ⟨?_, dictGet_dictSet, parseCandidate_eq 0 docC6, by decide, by decide⟩
  intro acc row hlen
  simp only [liabRowTotal]
  split_ifs <;> rfl

/-- Witness for the amended C6: the mapping rule at a concrete row. -/
theorem liabilities_example_amended_witness :
    (liabRowTotal ([], initRecord 0) ["Bank Loan", "Rs 1,00,000"]).1 =
      dictSet [] "Bank Loan" "Rs 1,00,000" :=
  liabilities_example_amended.1 ([], initRecord 0) ["Bank Loan", "Rs 1,00,000"] (by decide)

/-- C7 counterexample: on a page with no criminal-cases heading whose
text contains the figure 2 conviction, the record's conviction count is
zero while the full-page search captures 2, so the count is not the
search result for every input document. -/
theorem convictions_counterexample :
    parseCandidate 0 (some docC7) = some (recordFields (buildRecordTotal 0 docC7)) ∧
    (buildRecordTotal 0 docC7).convictions_count = 0 ∧
    convictionCount docC7.pageText = 2 ∧
    (buildRecordTotal 0 docC7).convictions_count ≠ convictionCount docC7.pageText := by
  refine ⟨parseCandidate_eq 0 docC7, ?_, ?_, ?_⟩ <;> decide

/-- C7 amended: the conviction count equals the first captured integer
of the full-page search only on the path where a criminal-cases heading
exists and no No-criminal-cases statement is found; with no heading, or
with that statement, it is zero regardless of the page text. -/
theorem convictions_path_dependent (cid : Nat) (doc : Doc) :
    ∃ r : CandidateRecord,
      parseCandidate cid (some doc) = some (recordFields r) ∧
      (doc.criminal = none → r.convictions_count = 0) ∧
      (∀ sec : CrimSec, doc.criminal = some sec →
        strContains sec.siblingText "No criminal cases" = true →
        r.convictions_count = 0) ∧
      (∀ sec : CrimSec, doc.criminal = some sec →
        strContains sec.siblingText "No criminal cases" = false →
        r.convictions_count = convictionCount doc.pageText) := by
  have hframe : (buildRecordTotal cid doc).convictions_count =
      (applyCriminal (preRecord cid doc) doc).convictions_count := by
    unfold buildRecordTotal
    exact (summary_keeps _ _).2.2.1.trans
      ((applyLiabTotal_keeps _ _).2.2.1.trans (applyImmovableTotal_keeps _ _).2.2)
  refine ⟨buildRecordTotal cid doc, parseCandidate_eq cid doc, ?_, ?_, ?_⟩
  · intro h
    rw [hframe, applyCriminal_conv_none _ _ h]
    exact (preRecord_zero cid doc).2
  · intro sec h hs
    rw [hframe, applyCriminal_conv_nocase _ _ sec h hs]
    exact (preRecord_zero cid doc).2
  · intro sec h hs
    rw [hframe]
    exact applyCriminal_conv_main _ _ sec h hs

/-- Witness for the amended C7: the no-heading path at a concrete page
yields conviction count zero. -/
theorem convictions_path_dependent_witness :
    ∃ r : CandidateRecord,
      parseCandidate 0 (some docC7) = some (recordFields r) ∧ r.convictions_count = 0 := by
  obtain ⟨r, h1, h2, _, _⟩ := convictions_path_dependent 0 docC7
  exact ⟨r, h1, h2 rfl⟩

/-- C8: the text normalizer is idempotent, never returns leading or
trailing whitespace, collapses internal whitespace runs to single
blanks, maps the empty string to itself, and maps the sample two blanks,
a, blanks, b, newline to a blank-separated a b. -/
theorem clean_normalizer_props :
    (∀ x : String, clean (clean x) = clean x) ∧
    (∀ x : String, leadOK (clean x).data = true ∧ tailOK (clean x).data = true) ∧
    (∀ x : String, normalizedChars (clean x).data = true) ∧
    clean "" = "" ∧
    clean "  a   b\n" = "a b" :=
  ⟨clean_idem, fun x => ⟨clean_data_leadOK x, clean_data_tailOK x⟩,
   clean_data_normalized, by decide, by decide⟩

/-- C9: when the fetch collaborator returns the failure sentinel,
parse_candidate returns the dict holding exactly the candidate
identifier and the error tag, with no other key. -/
theorem fetch_failure_minimal_record (cid : Nat) :
    parseCandidate cid none =
      some [("candidate_id", Val.n cid), ("error", Val.s "fetch_failed")] := rfl

/-- C10: the final bold-figure fallback pass changes at most the
liabilities_total field, does nothing at all when that field is already
non-empty, and a single step never changes the immovable-assets grand
total, whatever the preceding text. -/
theorem bold_summary_frame (bolds : List BoldTag) (r : CandidateRecord) :
    applyBoldSummary r bolds =
      { r with liabilities_total := (applyBoldSummary r bolds).liabilities_total } ∧
    (r.liabilities_total ≠ "" → applyBoldSummary r bolds = r) ∧
    (∀ b : BoldTag,
      (summaryStep r b).immovable_assets_grand_total = r.immovable_assets_grand_total) := by
  refine ⟨(applyBoldSummary_cases bolds r).1, (applyBoldSummary_cases bolds r).2, ?_⟩
  intro b
  rcases summaryStep_cases r b with h | ⟨_, h⟩ <;> rw [h]

/-- Witness for C10: a matching bold figure does not overwrite an
already-set liabilities total. -/
theorem bold_summary_frame_witness :
    applyBoldSummary { initRecord 0 with liabilities_total := "x" }
        [⟨"Rs 5", "", some "Liabilities:"⟩] =
      { initRecord 0 with liabilities_total := "x" } :=
  (bold_summary_frame [⟨"Rs 5", "", some "Liabilities:"⟩]
    { initRecord 0 with liabilities_total := "x" }).2.1 (by decide)

end Myneta
